import Mathlib

/-!
Shallow embedding of the eclint core: the rule engine of `lib/eclint.ts`,
the three rule modules present under `lib/rules` (`charset`,
`insert_final_newline`, `max_line_length`) and the infer-mode tallying
pipeline.  JavaScript runtime type errors (property access on `undefined`)
are modelled with `Except Unit`; absent (`undefined`) values with `Option`.
JS truthiness of a string is non-emptiness.
-/

namespace Eclint

/-- A JavaScript settings value: boolean, string or number. -/
inductive EValue where
  | vBool : Bool → EValue
  | vStr : String → EValue
  | vNum : Int → EValue
deriving DecidableEq, Repr

/-- Modelled from the spec: one line of the document model (the `linez`
document builder is an external module, not part of `lib/`).  `text` is
`none` for a line record that is purely a terminator with no content, and
`ending` is the empty string for a final line with no terminator (the
`NONE` newline). -/
structure Line where
  number : Nat
  text : Option String := none
  ending : String := ""
deriving DecidableEq, Repr

/-- Modelled from the spec: the document model - an ordered sequence of
lines plus a document-level charset derived from the line-1 BOM
(`undefined` when no BOM was detected). -/
structure Document where
  charset : Option String := none
  lines : List Line := []
deriving DecidableEq, Repr

/-- JS truthiness of an optional string: `undefined` and the empty string
are falsy. -/
def isTruthyStr : Option String → Bool
  | none => false
  | some s => if s = "" then false else true

/-- The BOM literal belonging to a charset name (the `boms` table of
`lib/rules/charset.ts`, bytes written as characters). -/
def bomOf : String → String
  | "utf-8-bom" => "\u00EF\u00BB\u00BF"
  | "utf-16be" => "\u00FE\u00FF"
  | "utf-32le" => "\u00FF\u00FE\u0000\u0000"
  | "utf-16le" => "\u00FF\u00FE"
  | "utf-32be" => "\u0000\u0000\u00FE\u00FF"
  | _ => ""

/-- The serialized form of one line: the text (empty when undefined)
followed by the ending (the BOM is document-level here). -/
def lineStr (l : Line) : String := l.text.getD "" ++ l.ending

/-- Concatenation of the serialized lines. -/
def concatLines : List Line → String
  | [] => ""
  | l :: rest => lineStr l ++ concatLines rest

/-- Modelled from the spec: document serialization (the toBuffer method
of the external document model) concatenates the BOM of the document
charset with the text and ending of each line. -/
def Document.toBuffer (d : Document) : String :=
  (match d.charset with | some c => bomOf c | none => "") ++ concatLines d.lines

/-- The `Settings` interface of `lib/eclint.ts`, restricted to the keys
the rules embedded here read.  `insert_final_newline` keeps the raw JS
value because `resolve` of that rule inspects its runtime type. -/
structure Settings where
  charset : Option String := none
  end_of_line : Option String := none
  insert_final_newline : Option EValue := none
  max_line_length : Option Int := none
deriving DecidableEq, Repr

/-- The violation record (EditorConfigError).  The source field holds
the numeric value that the check of insert_final_newline stores there. -/
structure EditorConfigError where
  message : String
  lineNumber : Option Nat := none
  columnNumber : Option Nat := none
  rule : Option String := none
  source : Option Nat := none
deriving DecidableEq, Repr

/-- A context.report call produces a message-only violation record. -/
def mkReport (m : String) : EditorConfigError := { message := m }

/-- The JS conversion String(x) on an optional string: undefined becomes
the string literal undefined. -/
def jsString : Option String → String
  | none => "undefined"
  | some s => s

namespace CharsetRule

/-- The keys of the boms table of lib/rules/charset.ts, in literal
order. -/
def bomKeys : List String :=
  ["utf-8-bom", "utf-16be", "utf-32le", "utf-16le", "utf-32be"]

/-- The resolve operation of lib/rules/charset.ts: the configured charset. -/
def resolve (s : Settings) : Option String := s.charset

/-- The infer operation of lib/rules/charset.ts: the charset detected
from the line-1 BOM. -/
def infer (d : Document) : Option String := d.charset

/-- The for loop of checkLatin1TextRange: one report per character whose
code is at least 0x80, carrying the 1-based column i + 1. -/
def latin1Go (n : Nat) : List Char → Nat → List EditorConfigError
  | [], _ => []
  | c :: rest, i =>
    if c.toNat ≥ 0x80 then
      mkReport ("line " ++ toString n ++ ", column: " ++ toString (i + 1)
          ++ ": character out of latin1 range: " ++ String.singleton c)
        :: latin1Go n rest (i + 1)
    else latin1Go n rest (i + 1)

/-- The function checkLatin1TextRange of lib/rules/charset.ts.  Reading
text of an absent line, or length of undefined text, is a JS TypeError. -/
def checkLatin1TextRange (ln : Option Line) : Except Unit (List EditorConfigError) :=
  match ln with
  | none => .error ()
  | some l =>
    match l.text with
    | none => .error ()
    | some t => .ok (latin1Go l.number t.toList 0)

/-- The check operation of lib/rules/charset.ts: a truthy detected
charset is compared against the configured one (reporting on mismatch and
returning either way); otherwise a configured latin1 triggers the
text-range scan of doc.lines[0] only; otherwise a configured BOM-bearing
charset is reported as expected. -/
def check (s : Settings) (d : Document) : Except Unit (List EditorConfigError) :=
  if isTruthyStr (infer d) then
    .ok (if resolve s ≠ infer d then
        [mkReport ("invalid charset: " ++ jsString (infer d) ++ ", expected: "
          ++ jsString (resolve s))]
      else [])
  else if resolve s = some "latin1" then
    checkLatin1TextRange d.lines.head?
  else if (match resolve s with | some cs => bomKeys.contains cs | none => false) then
    .ok [mkReport ("expected charset: " ++ jsString s.charset)]
  else .ok []

/-- The fix operation of lib/rules/charset.ts: sets the document charset
to the configured value. -/
def fix (s : Settings) (d : Document) : Document := { d with charset := resolve s }

end CharsetRule

namespace InsertFinalNewlineRule

/-- The newlines table of lib/rules/insert_final_newline.ts. -/
def newlines : String → Option String
  | "lf" => some "\n"
  | "crlf" => some "\r\n"
  | "cr" => some "\r"
  | _ => none

/-- The resolve operation of lib/rules/insert_final_newline.ts: the
configured value only when it is an actual boolean (isBoolean). -/
def resolve (s : Settings) : Option Bool :=
  match s.insert_final_newline with
  | some (.vBool b) => some b
  | _ => none

/-- The infer operation of lib/rules/insert_final_newline.ts: whether the
last line exists and has a truthy (non-empty) ending. -/
def infer (d : Document) : Bool :=
  match d.lines.getLast? with
  | some l => if l.ending = "" then false else true
  | none => false

/-- The check operation of lib/rules/insert_final_newline.ts: nothing
when the setting is not a boolean or matches the inferred state;
otherwise an error record built from the last line - reading text.length
of a last line whose text is undefined, or of an absent last line, is a
TypeError. -/
def check (s : Settings) (d : Document) : Except Unit (List EditorConfigError) :=
  match resolve s with
  | none => .ok []
  | some cfg =>
    if infer d = cfg then .ok []
    else
      let message := if cfg then "expected final newline" else "unexpected final newline"
      match d.lines.getLast? with
      | none => .error ()
      | some lastLine =>
        match lastLine.text with
        | none => .error ()
        | some t =>
          .ok [{ message := message,
                 lineNumber := some d.lines.length,
                 columnNumber := some t.length,
                 rule := some "end_of_line",
                 source := some (t.length + lastLine.ending.length) }]

/-- The expression settings.end_of_line with default value lf. -/
def eolName (s : Settings) : String :=
  match s.end_of_line with
  | some e => if e = "" then "lf" else e
  | none => "lf"

/-- The in-place assignment `doc.lines[doc.lines.length - 1].ending = nl`. -/
def setLastEnding (nl : String) : List Line → List Line
  | [] => []
  | [l] => [{ l with ending := nl }]
  | l :: rest => l :: setLastEnding nl rest

/-- The while loop of `fix` toward false, written on the reversed line
list: while the last line has a truthy ending, clear the ending and stop
if its text is truthy, else pop the line and continue. -/
def stripTrailing : List Line → List Line
  | [] => []
  | l :: rest =>
    if l.ending = "" then l :: rest
    else if isTruthyStr l.text then { l with ending := "" } :: rest
    else stripTrailing rest

/-- The fix operation of lib/rules/insert_final_newline.ts.  An
end_of_line name outside the newlines table (where JS would store
undefined as the ending) is mapped to the empty ending here and is
outside the statements proved below. -/
def fix (s : Settings) (d : Document) : Document :=
  match resolve s with
  | some true =>
    if infer d then d
    else
      let nl := (newlines (eolName s)).getD ""
      match d.lines with
      | [] => { d with lines := [{ number := 1, text := some "", ending := nl }] }
      | _ :: _ => { d with lines := setLastEnding nl d.lines }
  | _ => { d with lines := (stripTrailing d.lines.reverse).reverse }

end InsertFinalNewlineRule

namespace MaxLineLengthRule

/-- The resolve operation of lib/rules/max_line_length.ts: the configured
maximum when numeric (the field is typed as a number in the Settings
interface). -/
def resolve (s : Settings) : Option Int := s.max_line_length

/-- The infer operation of lib/rules/max_line_length.ts: line.text.length
with a TypeError when the text is undefined. -/
def infer (l : Line) : Except Unit Nat :=
  match l.text with
  | none => .error ()
  | some t => .ok t.length

/-- The check operation of lib/rules/max_line_length.ts: report when the
measured length exceeds the configured maximum (the JS comparison against
an absent setting is false).  The reported record carries the line number
of the offending line. -/
def check (s : Settings) (l : Line) : Except Unit (Option EditorConfigError) :=
  match infer l with
  | .error e => .error e
  | .ok len =>
    match s.max_line_length with
    | some m =>
      if (len : Int) > m then
        let msg := "line " ++ toString l.number ++ ": line length: "
          ++ toString len ++ ", exceeds: " ++ toString m
        .ok (some { message := msg, lineNumber := some l.number })
      else .ok none
    | none => .ok none

/-- The fix operation of lib/rules/max_line_length.ts: a noop returning
the line unchanged. -/
def fix (_s : Settings) (l : Line) : Line := l

end MaxLineLengthRule

/-- A rule implementation, tagged by its `type` field: document-scoped or
line-scoped, each with its check and fix operations. -/
inductive RuleImpl where
  | docRule (check : Settings → Document → Except Unit (List EditorConfigError))
      (fix : Settings → Document → Document)
  | lineRule (check : Settings → Line → Except Unit (Option EditorConfigError))
      (fix : Settings → Line → Line)

/-- The rule registry of `lib/eclint.ts` restricted to the rule modules
present under `lib/rules`. -/
def rules : List (String × RuleImpl) :=
  [("charset", .docRule CharsetRule.check CharsetRule.fix),
   ("insert_final_newline", .docRule InsertFinalNewlineRule.check InsertFinalNewlineRule.fix),
   ("max_line_length", .lineRule MaxLineLengthRule.check MaxLineLengthRule.fix)]

/-- Read one key of a JS settings object represented as its insertion
ordered key/value list. -/
def lookupKey (l : List (String × EValue)) (k : String) : Option EValue :=
  (l.find? (fun p => p.1 = k)).map (fun p => p.2)

/-- The settings object seen by the rules, read off the key/value list
with the field types of the `Settings` interface. -/
def toSettings (l : List (String × EValue)) : Settings :=
  { charset := match lookupKey l "charset" with | some (.vStr c) => some c | _ => none
  , end_of_line := match lookupKey l "end_of_line" with | some (.vStr e) => some e | _ => none
  , insert_final_newline := lookupKey l "insert_final_newline"
  , max_line_length := match lookupKey l "max_line_length" with | some (.vNum n) => some n | _ => none }

/-- Registry lookup (`rules[setting]`). -/
def ruleOf (tbl : List (String × RuleImpl)) (k : String) : Option RuleImpl :=
  (tbl.find? (fun p => p.1 = k)).map (fun p => p.2)

/-- The per-line check loop of the engine (`document.lines.forEach` with
`addError`): at most one error per line, appended in line order; a check
that throws aborts the call. -/
def checkLinesGo (chk : Settings → Line → Except Unit (Option EditorConfigError))
    (s : Settings) : List Line → Except Unit (List EditorConfigError)
  | [] => .ok []
  | l :: rest =>
    match chk s l with
    | .error e => .error e
    | .ok eOpt =>
      match checkLinesGo chk s rest with
      | .error e => .error e
      | .ok es => .ok ((match eOpt with | some e0 => [e0] | none => []) ++ es)

/-- One iteration of the engine check loop for one settings key; keys
with no registered rule are skipped (`_.isUndefined(rule)`). -/
def checkSettingKey (tbl : List (String × RuleImpl)) (s : Settings) (d : Document)
    (k : String) : Except Unit (List EditorConfigError) :=
  match ruleOf tbl k with
  | none => .ok []
  | some (.docRule chk _) => chk s d
  | some (.lineRule chk _) => checkLinesGo chk s d.lines

/-- The engine check loop over a list of settings keys, in exactly that
order, concatenating the violations of each key. -/
def checkKeys (tbl : List (String × RuleImpl)) (s : Settings) (d : Document) :
    List String → Except Unit (List EditorConfigError)
  | [] => .ok []
  | k :: ks =>
    match checkSettingKey tbl s d k with
    | .error e => .error e
    | .ok es =>
      match checkKeys tbl s d ks with
      | .error e => .error e
      | .ok rest => .ok (es ++ rest)

/-- The `check` command loop of `lib/eclint.ts`: it iterates
Object.keys(settings), that is, the key order of the settings
object itself. -/
def engineCheck (tbl : List (String × RuleImpl)) (settingsList : List (String × EValue))
    (d : Document) : Except Unit (List EditorConfigError) :=
  checkKeys tbl (toSettings settingsList) d (settingsList.map (fun p => p.1))

/-- One iteration of the engine fix loop for one settings key; the
line-rule branch models the in-place per-line mutation as a map. -/
def fixKey (tbl : List (String × RuleImpl)) (s : Settings) (d : Document)
    (k : String) : Document :=
  match ruleOf tbl k with
  | none => d
  | some (.docRule _ fx) => fx s d
  | some (.lineRule _ fx) => { d with lines := d.lines.map (fx s) }

/-- The engine fix loop over a list of settings keys, in that order. -/
def fixKeys (tbl : List (String × RuleImpl)) (s : Settings) (d : Document)
    (ks : List String) : Document :=
  ks.foldl (fixKey tbl s) d

/-- The `fix` command loop of `lib/eclint.ts`: it also iterates
`Object.keys(settings)`. -/
def engineFix (tbl : List (String × RuleImpl)) (settingsList : List (String × EValue))
    (d : Document) : Document :=
  fixKeys tbl (toSettings settingsList) d (settingsList.map (fun p => p.1))

namespace InferMode

/-- The JS conversion String(value) on an inferred rule value, used as
the tally key. -/
def keyOf : Option EValue → String
  | none => "undefined"
  | some (.vBool true) => "true"
  | some (.vBool false) => "false"
  | some (.vStr s) => s
  | some (.vNum n) => toString n

/-- The function incrementSetting of lib/eclint.ts on an insertion
ordered frequency table: missing keys are appended with count 0 and then
the count of the key is incremented. -/
def incrementSetting (table : List (String × Nat)) (v : String) : List (String × Nat) :=
  if table.any (fun p => p.1 = v) then
    table.map (fun p => if p.1 = v then (p.1, p.2 + 1) else p)
  else table ++ [(v, 1)]

/-- The per-invocation score object (`ScoredSettings` of `lib/eclint.ts`)
for the rules embedded here. -/
structure ScoredSettings where
  charset : List (String × Nat) := []
  insert_final_newline : List (String × Nat) := []
  max_line_length : Nat := 0
deriving DecidableEq, Repr

/-- The running maximum of line text lengths within one file (the
max_line_length branch of the rules loop in bufferContents). -/
def maxLineLenGo : Nat → List Line → Except Unit Nat
  | m, [] => .ok m
  | m, l :: rest =>
    match MaxLineLengthRule.infer l with
    | .error e => .error e
    | .ok v => maxLineLenGo (if v > m then v else m) rest

/-- The function bufferContents of lib/eclint.ts for one file: for every
rule key the per-invocation table is first re-initialized
(settings[key] = {} and settings.max_line_length = 0) and then tallied
from this file alone, so the accumulator sc carried between files is
discarded. -/
def bufferContents (sc : ScoredSettings) (d : Document) : Except Unit ScoredSettings :=
  let _ := sc
  let charsetTable := incrementSetting [] (keyOf ((CharsetRule.infer d).map EValue.vStr))
  let ifnTable := incrementSetting [] (keyOf (some (.vBool (InsertFinalNewlineRule.infer d))))
  match maxLineLenGo 0 d.lines with
  | .error e => .error e
  | .ok mll =>
    .ok { charset := charsetTable, insert_final_newline := ifnTable, max_line_length := mll }

/-- The stream loop of an infer invocation threading the score object. -/
def processFilesGo (sc : ScoredSettings) : List Document → Except Unit ScoredSettings
  | [] => .ok sc
  | d :: rest =>
    match bufferContents sc d with
    | .error e => .error e
    | .ok sc2 => processFilesGo sc2 rest

/-- The infer stream: bufferContents over each file in order, starting
from the empty score object created once per invocation. -/
def processFiles (files : List Document) : Except Unit ScoredSettings :=
  processFilesGo {} files

/-- Decimal digits of a nonempty all-digit character list. -/
def digitsToNat : List Char → Option Nat
  | [] => none
  | cs =>
    cs.foldl (fun acc c =>
      match acc with
      | none => none
      | some n => if 48 ≤ c.toNat ∧ c.toNat ≤ 57 then some (n * 10 + (c.toNat - 48)) else none)
      (some 0)

/-- An integer JSON literal (optional minus sign, then digits). -/
def parseIntLit (cs : List Char) : Option Int :=
  match cs with
  | c :: rest =>
    if c = Char.ofNat 45 then (digitsToNat rest).map (fun n => -(n : Int))
    else (digitsToNat cs).map (fun n => (n : Int))
  | [] => none

/-- The function parseValue of resolveScores: JSON.parse on the tally key
(booleans and integer literals parse, which covers every key the embedded
rules tally; any other key falls back to the raw string).  JSON.parse
never evaluates to undefined, so the isUndefined guard of the source
never blocks an overwrite. -/
def parseValue (v : String) : EValue :=
  if v = "true" then .vBool true
  else if v = "false" then .vBool false
  else match parseIntLit v.toList with
    | some n => .vNum n
    | none => .vStr v

/-- The per-table loop of resolveScores: maxScore starts at 0 and any
entry whose score is at least the current maxScore overwrites the result
(the comparison in the source is score >= maxScore). -/
def resolveGo : Nat → Option EValue → List (String × Nat) → Option EValue
  | _, r, [] => r
  | m, r, (v, sc) :: rest =>
    if sc ≥ m then resolveGo sc (some (parseValue v)) rest
    else resolveGo m r rest

/-- Resolution of one setting from its frequency table. -/
def resolveSetting (table : List (String × Nat)) : Option EValue :=
  resolveGo 0 none table

/-- Math.ceil of n over 10, times 10, on naturals. -/
def ceil10 (n : Nat) : Nat := ((n + 9) / 10) * 10

/-- The resolved settings produced by `resolveScores` (the dynamic
`result: Settings` object of the source, holding parsed JSON values). -/
structure InferredSettings where
  charset : Option EValue := none
  insert_final_newline : Option EValue := none
  max_line_length : Nat := 0
deriving DecidableEq, Repr

/-- The function resolveScores of lib/eclint.ts: every tallied setting
resolves from its table; max_line_length is special-cased to the rounded
running maximum. -/
def resolveScores (sc : ScoredSettings) : InferredSettings :=
  { charset := resolveSetting sc.charset
  , insert_final_newline := resolveSetting sc.insert_final_newline
  , max_line_length := ceil10 sc.max_line_length }

end InferMode


/-! Helper lemmas shared by the claim theorems. -/

/-- The last element of a reversed list is the head of the list. -/
theorem reverse_getLast_eq_head {α : Type} (l : List α) :
    l.reverse.getLast? = l.head? := by
  cases l <;> simp

/-- Clearing the ending of the last line and appending a terminator
commute with serialization when the last line had no terminator. -/
theorem concatLines_setLastEnding (nl : String) :
    ∀ (ls : List Line) (l : Line), ls.getLast? = some l → l.ending = "" →
    concatLines (InsertFinalNewlineRule.setLastEnding nl ls) = concatLines ls ++ nl := by
  intro ls
  induction ls with
  | nil => intro l h _; simp at h
  | cons a rest ih =>
    intro l h he
    cases rest with
    | nil =>
      simp at h
      subst h
      simp [InsertFinalNewlineRule.setLastEnding, concatLines, lineStr, he,
        String.append_empty, String.append_assoc]
    | cons b rest2 =>
      have h2 : (b :: rest2).getLast? = some l := by
        simpa [List.getLast?_cons_cons] using h
      simp only [InsertFinalNewlineRule.setLastEnding, concatLines]
      rw [ih l h2 he, String.append_assoc]
      simp [concatLines, String.append_assoc]

/-- The head of the output of stripTrailing always has an empty ending. -/
theorem stripTrailing_head_ending :
    ∀ (rl : List Line) (l : Line),
    (InsertFinalNewlineRule.stripTrailing rl).head? = some l → l.ending = "" := by
  intro rl
  induction rl with
  | nil => intro l h; simp [InsertFinalNewlineRule.stripTrailing] at h
  | cons a rest ih =>
    intro l h
    by_cases h1 : a.ending = ""
    · simp [InsertFinalNewlineRule.stripTrailing, h1] at h
      subst h; exact h1
    · by_cases h2 : isTruthyStr a.text
      · simp [InsertFinalNewlineRule.stripTrailing, h1, h2] at h
        subst h; rfl
      · simp only [InsertFinalNewlineRule.stripTrailing, if_neg h1] at h
        rw [if_neg h2] at h
        exact ih l h

/-- On a list of blank lines that all carry a terminator, stripTrailing
pops everything. -/
theorem stripTrailing_all_blank :
    ∀ (rl : List Line),
    (∀ l ∈ rl, isTruthyStr l.text = false ∧ l.ending ≠ "") →
    InsertFinalNewlineRule.stripTrailing rl = [] := by
  intro rl
  induction rl with
  | nil => intro _; rfl
  | cons a rest ih =>
    intro hall
    have ha := hall a (by simp)
    simp only [InsertFinalNewlineRule.stripTrailing, if_neg ha.2]
    rw [ha.1]
    simp only [Bool.false_eq_true, if_false]
    exact ih (fun l hl => hall l (by simp [hl]))

/-- The latin1 for loop as a filterMap over the indexed characters. -/
theorem latin1Go_eq_filterMap (n : Nat) :
    ∀ (cs : List Char) (i : Nat),
    CharsetRule.latin1Go n cs i = (List.enumFrom i cs).filterMap (fun p =>
      if p.2.toNat ≥ 0x80 then
        some (mkReport ("line " ++ toString n ++ ", column: " ++ toString (p.1 + 1)
          ++ ": character out of latin1 range: " ++ String.singleton p.2))
      else none) := by
  intro cs
  induction cs with
  | nil => intro i; rfl
  | cons c rest ih =>
    intro i
    by_cases hc : c.toNat ≥ 0x80
    · simp only [CharsetRule.latin1Go, List.enumFrom, List.filterMap_cons, if_pos hc]
      rw [ih]
    · simp only [CharsetRule.latin1Go, List.enumFrom, List.filterMap_cons, if_neg hc]
      rw [ih]

/-- A trailing table entry whose score matches or beats everything before
it always wins the resolution loop. -/
theorem resolveGo_append_last :
    ∀ (xs : List (String × Nat)) (v : String) (sc m : Nat) (r : Option EValue),
    m ≤ sc → (∀ p ∈ xs, p.2 ≤ sc) →
    InferMode.resolveGo m r (xs ++ [(v, sc)]) = some (InferMode.parseValue v) := by
  intro xs
  induction xs with
  | nil =>
    intro v sc m r hm _
    simp [InferMode.resolveGo, hm]
  | cons p rest ih =>
    intro v sc m r hm hall
    obtain ⟨pv, ps⟩ := p
    simp only [List.cons_append, InferMode.resolveGo]
    by_cases hge : ps ≥ m
    · rw [if_pos hge]
      exact ih v sc ps _ (hall (pv, ps) (by simp)) (fun q hq => hall q (by simp [hq]))
    · rw [if_neg hge]
      exact ih v sc m r hm (fun q hq => hall q (by simp [hq]))


/-- Violations of consecutive key groups concatenate in key order. -/
theorem checkKeys_append :
    ∀ (tbl : List (String × RuleImpl)) (s : Settings) (d : Document)
      (ks1 ks2 : List String) (es1 es2 : List EditorConfigError),
    checkKeys tbl s d ks1 = .ok es1 → checkKeys tbl s d ks2 = .ok es2 →
    checkKeys tbl s d (ks1 ++ ks2) = .ok (es1 ++ es2) := by
  intro tbl s d ks1
  induction ks1 with
  | nil =>
    intro ks2 es1 es2 h1 h2
    simp only [checkKeys] at h1
    cases h1
    simpa using h2
  | cons k ks ih =>
    intro ks2 es1 es2 h1 h2
    simp only [checkKeys, List.cons_append] at h1 ⊢
    cases hk : checkSettingKey tbl s d k with
    | error e => simp [hk] at h1
    | ok e0 =>
      simp only [hk] at h1 ⊢
      cases hr : checkKeys tbl s d ks with
      | error e => simp [hr] at h1
      | ok r =>
        simp only [hr, Except.ok.injEq] at h1
        simp only [List.append_eq]
        rw [ih ks2 r es2 hr h2]
        simp [← h1, List.append_assoc]

/-- The fix loop over concatenated key lists composes in key order. -/
theorem fixKeys_append (tbl : List (String × RuleImpl)) (s : Settings) (d : Document)
    (ks1 ks2 : List String) :
    fixKeys tbl s d (ks1 ++ ks2) = fixKeys tbl s (fixKeys tbl s d ks1) ks2 := by
  simp [fixKeys, List.foldl_append]

/-- A violation reported by the max_line_length check carries the number
of the line it was produced from. -/
theorem maxLineLength_check_lineNumber (s : Settings) (l : Line) (e : EditorConfigError) :
    MaxLineLengthRule.check s l = .ok (some e) → e.lineNumber = some l.number := by
  intro h
  simp only [MaxLineLengthRule.check, MaxLineLengthRule.infer] at h
  cases ht : l.text with
  | none => simp [ht] at h
  | some t =>
    simp only [ht] at h
    cases hm : s.max_line_length with
    | none => simp [hm] at h
    | some m =>
      simp only [hm] at h
      by_cases hlt : (t.length : Int) > m
      · rw [if_pos hlt] at h
        simp only [Except.ok.injEq, Option.some.injEq] at h
        rw [← h]
      · rw [if_neg hlt] at h; exact absurd h (by simp)

/-- Every violation collected by the per-line loop comes from some line
of the list. -/
theorem checkLinesGo_mem
    (chk : Settings → Line → Except Unit (Option EditorConfigError)) (s : Settings) :
    ∀ (ls : List Line) (es : List EditorConfigError) (e : EditorConfigError),
    checkLinesGo chk s ls = .ok es → e ∈ es → ∃ l, l ∈ ls ∧ chk s l = .ok (some e) := by
  intro ls
  induction ls with
  | nil =>
    intro es e h he
    simp only [checkLinesGo] at h
    cases h
    simp at he
  | cons a rest ih =>
    intro es e h he
    simp only [checkLinesGo] at h
    cases ha : chk s a with
    | error x => simp [ha] at h
    | ok eOpt =>
      simp only [ha] at h
      cases hr : checkLinesGo chk s rest with
      | error x => simp [hr] at h
      | ok es2 =>
        simp only [hr, Except.ok.injEq] at h
        subst h
        cases eOpt with
        | none =>
          simp only [List.nil_append] at he
          obtain ⟨l, hl, hcl⟩ := ih es2 e hr he
          exact ⟨l, by simp [hl], hcl⟩
        | some e0 =>
          simp only [List.singleton_append, List.mem_cons] at he
          cases he with
          | inl heq =>
            subst heq
            exact ⟨a, by simp, ha⟩
          | inr hmem =>
            obtain ⟨l, hl, hcl⟩ := ih es2 e hr hmem
            exact ⟨l, by simp [hl], hcl⟩

/-- Violations collected by the per-line max_line_length loop are sorted
by line number whenever the lines are visited with strictly increasing
numbers. -/
theorem checkLinesGo_mll_sorted (s : Settings) :
    ∀ (ls : List Line) (es : List EditorConfigError),
    List.Pairwise (fun a b => a.number < b.number) ls →
    checkLinesGo MaxLineLengthRule.check s ls = .ok es →
    List.Pairwise (fun a b => a.lineNumber.getD 0 ≤ b.lineNumber.getD 0) es := by
  intro ls
  induction ls with
  | nil =>
    intro es _ h
    simp only [checkLinesGo] at h
    cases h
    exact List.Pairwise.nil
  | cons a rest ih =>
    intro es hp h
    simp only [checkLinesGo] at h
    cases ha : MaxLineLengthRule.check s a with
    | error x => simp [ha] at h
    | ok eOpt =>
      simp only [ha] at h
      cases hr : checkLinesGo MaxLineLengthRule.check s rest with
      | error x => simp [hr] at h
      | ok es2 =>
        simp only [hr, Except.ok.injEq] at h
        subst h
        have hrest := ih es2 (List.Pairwise.of_cons hp) hr
        cases eOpt with
        | none => simpa using hrest
        | some e0 =>
          simp only [List.singleton_append]
          refine List.Pairwise.cons ?_ hrest
          intro b hb
          obtain ⟨l2, hl2, hcl2⟩ := checkLinesGo_mem MaxLineLengthRule.check s rest es2 b hr hb
          have he0 := maxLineLength_check_lineNumber s a e0 ha
          have hb2 := maxLineLength_check_lineNumber s l2 b hcl2
          rw [he0, hb2]
          simp only [Option.getD_some]
          exact Nat.le_of_lt (List.rel_of_pairwise_cons hp hl2)


/-! Claim theorems. -/

/-- C1: the claim states that the per-setting frequency tables accumulate
across all files of one infer invocation and are not reset between files.
In the code, bufferContents re-initializes every table at the start of
each file, so after a two-file invocation the table holds only the
tallies of the last file: the first file below infers
insert_final_newline true, yet the final table records only the single
false tally of the second file. -/
theorem c1_infer_tables_reset_between_files :
    InsertFinalNewlineRule.infer
      { lines := [{ number := 1, text := some "x", ending := "\n" }] } = true
    ∧ (InferMode.processFiles
        [{ lines := [{ number := 1, text := some "x", ending := "\n" }] },
         { lines := [{ number := 1, text := some "x", ending := "" }] }]).map
        (fun sc => sc.insert_final_newline)
      = .ok [("false", 1)] := ⟨rfl, rfl⟩

/-- C2 counterexample: on the tied table (lf at 2, crlf at 2) the loop of
resolveScores overwrites whenever score >= maxScore, so the value
encountered last wins instead of the value encountered first as claimed. -/
theorem c2_counterexample :
    InferMode.resolveSetting [("lf", 2), ("crlf", 2)] = some (.vStr "crlf")
    ∧ InferMode.resolveSetting [("lf", 2), ("crlf", 2)] ≠ some (.vStr "lf") :=
  ⟨by decide, by decide⟩

/-- C2 (amended): when resolving a setting from its frequency table, a
tie between values with equal highest tally is resolved to the value
encountered last in the stable iteration order: any final entry whose
score is at least every earlier score wins the resolution. -/
theorem c2_tie_resolved_last_encountered :
    ∀ (xs : List (String × Nat)) (v : String) (sc : Nat),
    (∀ p ∈ xs, p.2 ≤ sc) →
    InferMode.resolveSetting (xs ++ [(v, sc)]) = some (InferMode.parseValue v) := by
  intro xs v sc hall
  exact resolveGo_append_last xs v sc 0 none (Nat.zero_le sc) hall

/-- C2 witness. -/
theorem c2_witness :
    InferMode.resolveSetting ([("lf", 2)] ++ [("crlf", 2)])
      = some (InferMode.parseValue "crlf") :=
  c2_tie_resolved_last_encountered [("lf", 2)] "crlf" 2 (by decide)

/-- C5: the claim states a check call never throws and that the
insert_final_newline check returns a violation record even when the last
line has undefined text.  On a document whose single line is a bare
terminator, with insert_final_newline configured false, the check reads
the length of undefined text and throws, both at the rule and via the
engine loop. -/
theorem c5_check_throws_on_undefined_text :
    InsertFinalNewlineRule.check { insert_final_newline := some (.vBool false) }
      { lines := [{ number := 1, text := none, ending := "\n" }] } = .error ()
    ∧ engineCheck rules [("insert_final_newline", .vBool false)]
      { lines := [{ number := 1, text := none, ending := "\n" }] } = .error () := ⟨rfl, rfl⟩

/-- C8: the max_line_length fix returns its input line unchanged for
every settings map and line, even when the check of the same line (here
of length 3 against a configured maximum of 2) reports a violation. -/
theorem c8_max_line_length_fix_noop :
    (∀ (s : Settings) (l : Line), MaxLineLengthRule.fix s l = l)
    ∧ MaxLineLengthRule.check { max_line_length := some 2 }
        { number := 1, text := some "abc", ending := "\n" }
      = .ok (some { message := "line 1: line length: 3, exceeds: 2", lineNumber := some 1 }) :=
  ⟨fun _ _ => rfl, rfl⟩

/-- C9: the claim states the resolved max_line_length is the running
maximum over all processed lines of the invocation rounded up to the
nearest multiple of 10.  The running maximum over both files below is 25,
whose rounding is 30, yet the invocation resolves 10 because
bufferContents resets the running maximum to 0 at the start of each file
and only the 5-character line of the last file survives. -/
theorem c9_max_line_length_reset_between_files :
    InferMode.maxLineLenGo 0
      ([{ number := 1, text := some "aaaaaaaaaaaaaaaaaaaaaaaaa", ending := "\n" }]
        ++ [{ number := 1, text := some "bbbbb", ending := "" }]) = .ok 25
    ∧ InferMode.ceil10 25 = 30
    ∧ (InferMode.processFiles
        [{ lines := [{ number := 1, text := some "aaaaaaaaaaaaaaaaaaaaaaaaa", ending := "\n" }] },
         { lines := [{ number := 1, text := some "bbbbb", ending := "" }] }]).map
        (fun sc => (InferMode.resolveScores sc).max_line_length)
      = .ok 10 := ⟨rfl, rfl, rfl⟩

/-- C10: a non-boolean insert_final_newline value (the string true) makes
resolve return none and check report nothing, yet fix takes the
configured-false branch and strips the final newline, mutating a document
the check considered compliant: the serialized document foo with a final
newline becomes foo without one. -/
theorem c10_nonboolean_setting_fixes_but_not_checks :
    (∀ (s : Settings) (d : Document), s.insert_final_newline = some (.vStr "true") →
      InsertFinalNewlineRule.resolve s = none
      ∧ InsertFinalNewlineRule.check s d = .ok []
      ∧ InsertFinalNewlineRule.fix s d
        = InsertFinalNewlineRule.fix { s with insert_final_newline := some (.vBool false) } d)
    ∧ InsertFinalNewlineRule.check { insert_final_newline := some (.vStr "true") }
        { lines := [{ number := 1, text := some "foo", ending := "\n" }] } = .ok []
    ∧ Document.toBuffer (InsertFinalNewlineRule.fix { insert_final_newline := some (.vStr "true") }
        { lines := [{ number := 1, text := some "foo", ending := "\n" }] }) = "foo"
    ∧ Document.toBuffer { lines := [{ number := 1, text := some "foo", ending := "\n" }] }
      = "foo\n" := by
  refine ⟨fun s d h => ⟨?_, ?_, ?_⟩, rfl, rfl, rfl⟩
  · simp [InsertFinalNewlineRule.resolve, h]
  · simp [InsertFinalNewlineRule.check, InsertFinalNewlineRule.resolve, h]
  · simp [InsertFinalNewlineRule.fix, InsertFinalNewlineRule.resolve, h]

/-- C10 witness. -/
theorem c10_witness :
    InsertFinalNewlineRule.resolve { insert_final_newline := some (.vStr "true") } = none
    ∧ InsertFinalNewlineRule.check { insert_final_newline := some (.vStr "true") }
        { lines := [{ number := 1, text := some "foo", ending := "\n" }] } = .ok []
    ∧ InsertFinalNewlineRule.fix { insert_final_newline := some (.vStr "true") }
        { lines := [{ number := 1, text := some "foo", ending := "\n" }] }
      = InsertFinalNewlineRule.fix { insert_final_newline := some (.vBool false) }
        { lines := [{ number := 1, text := some "foo", ending := "\n" }] } :=
  c10_nonboolean_setting_fixes_but_not_checks.1
    { insert_final_newline := some (.vStr "true") }
    { lines := [{ number := 1, text := some "foo", ending := "\n" }] } rfl


/-- C4 counterexample: a document with no detected charset, configured
latin1, whose second line contains a character of code 0x80, yields no
violation at all, because the check scans only the first line. -/
theorem c4_counterexample :
    CharsetRule.check { charset := some "latin1" }
      { charset := none,
        lines := [{ number := 1, text := some "ok", ending := "\n" },
                  { number := 2, text := some "\u0080", ending := "" }] }
      = .ok []
    ∧ ("\u0080".toList.any (fun ch => ch.toNat ≥ 0x80)) = true :=
  ⟨rfl, by decide⟩

/-- C4 (amended): with no detected charset and configured latin1, the
check scans only the text of the first line: it reports one violation
with its 1-based column for each character of that line whose code is at
least 0x80 (so a 0x7F character is never reported), and characters on
later lines are never scanned. -/
theorem c4_latin1_scan_first_line_only :
    ∀ (s : Settings) (d : Document) (l : Line) (t : String),
    isTruthyStr (CharsetRule.infer d) = false → s.charset = some "latin1" →
    d.lines.head? = some l → l.text = some t →
    CharsetRule.check s d
      = .ok ((List.enumFrom 0 t.toList).filterMap (fun p =>
          if p.2.toNat ≥ 0x80 then
            some (mkReport ("line " ++ toString l.number ++ ", column: " ++ toString (p.1 + 1)
              ++ ": character out of latin1 range: " ++ String.singleton p.2))
          else none)) := by
  intro s d l t h1 h2 h3 h4
  simp [CharsetRule.check, CharsetRule.resolve, CharsetRule.checkLatin1TextRange,
    h1, h2, h3, h4, latin1Go_eq_filterMap]

/-- C4 witness. -/
theorem c4_witness :
    CharsetRule.check { charset := some "latin1" }
      { charset := none, lines := [{ number := 1, text := some "a\u0080", ending := "" }] }
      = .ok ((List.enumFrom 0 ("a\u0080").toList).filterMap (fun p =>
          if p.2.toNat ≥ 0x80 then
            some (mkReport ("line " ++ toString (1 : Nat) ++ ", column: " ++ toString (p.1 + 1)
              ++ ": character out of latin1 range: " ++ String.singleton p.2))
          else none)) :=
  c4_latin1_scan_first_line_only { charset := some "latin1" }
    { charset := none, lines := [{ number := 1, text := some "a\u0080", ending := "" }] }
    { number := 1, text := some "a\u0080", ending := "" } "a\u0080" rfl rfl rfl rfl

/-- C7: the reporting conditions of the charset check: a truthy detected
charset differing from the configured one yields exactly the single
invalid-charset violation with no latin1 scan (the concrete utf-8-bom
document checked against configured latin1 yields exactly that one
violation and zero latin1-range violations); no detected charset with a
configured BOM-bearing variant yields the expected-charset violation. -/
theorem c7_charset_check_conditions :
    (∀ (s : Settings) (d : Document) (c : String),
      d.charset = some c → c ≠ "" → s.charset ≠ some c →
      CharsetRule.check s d
        = .ok [mkReport ("invalid charset: " ++ c ++ ", expected: " ++ jsString s.charset)])
    ∧ CharsetRule.check { charset := some "latin1" }
        { charset := some "utf-8-bom",
          lines := [{ number := 1, text := some "foo", ending := "" }] }
        = .ok [mkReport "invalid charset: utf-8-bom, expected: latin1"]
    ∧ (∀ (s : Settings) (d : Document) (cs : String),
      isTruthyStr (CharsetRule.infer d) = false → s.charset = some cs →
      CharsetRule.bomKeys.contains cs = true →
      CharsetRule.check s d = .ok [mkReport ("expected charset: " ++ cs)]) := by
  refine ⟨?_, rfl, ?_⟩
  · intro s d c h1 h2 h3
    have htc : isTruthyStr (some c) = true := by simp [isTruthyStr, h2]
    simp [CharsetRule.check, CharsetRule.infer, CharsetRule.resolve, h1, htc, h3, jsString]
  · intro s d cs h1 h2 h3
    have hne : cs ≠ "latin1" := by
      intro hcs
      subst hcs
      exact absurd h3 (by decide)
    have hmem : cs ∈ CharsetRule.bomKeys := by simpa using h3
    simp [CharsetRule.check, CharsetRule.resolve, h1, h2, hne, hmem, jsString]

/-- C7 witness. -/
theorem c7_witness :
    CharsetRule.check { charset := some "latin1" }
      { charset := some "utf-8-bom", lines := [] }
      = .ok [mkReport ("invalid charset: " ++ "utf-8-bom" ++ ", expected: "
          ++ jsString (some "latin1"))] :=
  c7_charset_check_conditions.1 { charset := some "latin1" }
    { charset := some "utf-8-bom", lines := [] } "utf-8-bom" rfl (by decide) (by decide)


/-- C6: the insert_final_newline fix.  Toward true on a document lacking
a final newline it appends the configured end_of_line terminator (the
default name is lf) - the serialized document gains exactly that
terminator, whether a last line exists or a new empty final line is
inserted into an empty document.  Toward false it strips trailing blank
lines and clears the final ending, so the result never has a final
newline and a document of blank terminated lines is fully emptied.  The
two concrete conjuncts are the spec examples: foo without terminator
under true and lf serializes to foo with a newline, and foo with a
newline under false serializes to foo. -/
theorem c6_insert_final_newline_fix :
    (∀ (s : Settings) (d : Document) (nl : String),
      InsertFinalNewlineRule.resolve s = some true →
      InsertFinalNewlineRule.infer d = false →
      InsertFinalNewlineRule.newlines (InsertFinalNewlineRule.eolName s) = some nl →
      Document.toBuffer (InsertFinalNewlineRule.fix s d) = Document.toBuffer d ++ nl)
    ∧ (∀ (s : Settings) (d : Document),
      InsertFinalNewlineRule.resolve s = some false →
      InsertFinalNewlineRule.infer (InsertFinalNewlineRule.fix s d) = false)
    ∧ (∀ (s : Settings) (d : Document),
      InsertFinalNewlineRule.resolve s = some false →
      (∀ l ∈ d.lines, isTruthyStr l.text = false ∧ l.ending ≠ "") →
      (InsertFinalNewlineRule.fix s d).lines = [])
    ∧ Document.toBuffer (InsertFinalNewlineRule.fix
        { insert_final_newline := some (.vBool true), end_of_line := some "lf" }
        { lines := [{ number := 1, text := some "foo", ending := "" }] }) = "foo\n"
    ∧ Document.toBuffer (InsertFinalNewlineRule.fix
        { insert_final_newline := some (.vBool false) }
        { lines := [{ number := 1, text := some "foo", ending := "\n" }] }) = "foo" := by
  refine ⟨?_, ?_, ?_, rfl, rfl⟩
  · intro s d nl h1 h2 h3
    simp only [InsertFinalNewlineRule.fix, h1, h2, Bool.false_eq_true, if_false, h3,
      Option.getD_some]
    cases hd : d.lines with
    | nil =>
      simp [Document.toBuffer, concatLines, lineStr, hd, String.append_empty,
        String.append_assoc]
    | cons a rest =>
      cases hl : d.lines.getLast? with
      | none =>
        rw [hd] at hl
        simp at hl
      | some l0 =>
        have hend : l0.ending = "" := by
          rw [InsertFinalNewlineRule.infer, hl] at h2
          by_cases hce : l0.ending = ""
          · exact hce
          · exfalso
            have h2x : (if l0.ending = "" then false else true) = false := h2
            rw [if_neg hce] at h2x
            exact absurd h2x (by simp)
        rw [hd] at hl
        simp only [Document.toBuffer, hd]
        rw [concatLines_setLastEnding nl (a :: rest) l0 hl hend, String.append_assoc]
  · intro s d h1
    have hfix : InsertFinalNewlineRule.fix s d
        = { d with lines := (InsertFinalNewlineRule.stripTrailing d.lines.reverse).reverse } := by
      simp [InsertFinalNewlineRule.fix, h1]
    rw [hfix]
    simp only [InsertFinalNewlineRule.infer]
    rw [reverse_getLast_eq_head]
    cases hh : (InsertFinalNewlineRule.stripTrailing d.lines.reverse).head? with
    | none => rfl
    | some l =>
      show (if l.ending = "" then false else true) = false
      rw [stripTrailing_head_ending _ l hh]
      simp
  · intro s d h1 hall
    have hfix : InsertFinalNewlineRule.fix s d
        = { d with lines := (InsertFinalNewlineRule.stripTrailing d.lines.reverse).reverse } := by
      simp [InsertFinalNewlineRule.fix, h1]
    rw [hfix]
    rw [stripTrailing_all_blank d.lines.reverse (fun l hl => hall l (List.mem_reverse.mp hl))]
    rfl

/-- C6 witness. -/
theorem c6_witness :
    Document.toBuffer (InsertFinalNewlineRule.fix
      { insert_final_newline := some (.vBool true) }
      { lines := [{ number := 1, text := some "foo", ending := "" }] })
    = Document.toBuffer { lines := [{ number := 1, text := some "foo", ending := "" }] }
      ++ "\n" :=
  c6_insert_final_newline_fix.1 { insert_final_newline := some (.vBool true) }
    { lines := [{ number := 1, text := some "foo", ending := "" }] } "\n" rfl rfl rfl


/-- C3 counterexample: the engine iterates the keys of the settings
object, not the fixed rule table.  With the settings keys ordered
insert_final_newline before charset, the violation of
insert_final_newline is emitted before the charset violation, while the
claimed rule-table order (charset at position 0, insert_final_newline at
position 6) demands the opposite order. -/
theorem c3_counterexample :
    (match engineCheck rules
        [("insert_final_newline", .vBool true), ("charset", .vStr "utf-8-bom")]
        { lines := [{ number := 1, text := some "foo", ending := "" }] } with
      | .ok es => es.map (fun e => e.message)
      | .error _ => [])
      = ["expected final newline", "expected charset: utf-8-bom"]
    ∧ (["expected final newline", "expected charset: utf-8-bom"]
        ≠ ["expected charset: utf-8-bom", "expected final newline"]) :=
  ⟨rfl, by decide⟩

/-- C3 (amended): check and fix apply rules in the iteration order of the
settings map keys, which depends on that map.  First conjunct: the
violations of consecutive key groups concatenate in key order.  Second
conjunct: the fix loop composes in key order.  Third conjunct: within one
line rule (max_line_length, the line rule of the registry), the collected
violations are ordered by ascending line number whenever the document
lines carry strictly increasing numbers. -/
theorem c3_engine_settings_key_order :
    (∀ (tbl : List (String × RuleImpl)) (s : Settings) (d : Document)
      (ks1 ks2 : List String) (es1 es2 : List EditorConfigError),
      checkKeys tbl s d ks1 = .ok es1 → checkKeys tbl s d ks2 = .ok es2 →
      checkKeys tbl s d (ks1 ++ ks2) = .ok (es1 ++ es2))
    ∧ (∀ (tbl : List (String × RuleImpl)) (s : Settings) (d : Document)
      (ks1 ks2 : List String),
      fixKeys tbl s d (ks1 ++ ks2) = fixKeys tbl s (fixKeys tbl s d ks1) ks2)
    ∧ (∀ (s : Settings) (ls : List Line) (es : List EditorConfigError),
      List.Pairwise (fun a b => a.number < b.number) ls →
      checkLinesGo MaxLineLengthRule.check s ls = .ok es →
      List.Pairwise (fun a b => a.lineNumber.getD 0 ≤ b.lineNumber.getD 0) es) :=
  ⟨checkKeys_append, fixKeys_append, checkLinesGo_mll_sorted⟩

/-- C3 witness. -/
theorem c3_witness :
    checkKeys rules
      (toSettings [("insert_final_newline", .vBool true), ("charset", .vStr "utf-8-bom")])
      { lines := [{ number := 1, text := some "foo", ending := "" }] }
      (["insert_final_newline"] ++ ["charset"])
      = .ok ([{ message := "expected final newline", lineNumber := some 1,
                columnNumber := some 3, rule := some "end_of_line", source := some 3 }]
          ++ [mkReport "expected charset: utf-8-bom"]) :=
  c3_engine_settings_key_order.1 rules
    (toSettings [("insert_final_newline", .vBool true), ("charset", .vStr "utf-8-bom")])
    { lines := [{ number := 1, text := some "foo", ending := "" }] }
    ["insert_final_newline"] ["charset"] _ _ rfl rfl

end Eclint
